import Mathlib

/-!
Shallow embedding of the path-boundary decision utilities
(`PathBoundsDeciderUtil`, declared in
`modules/planning/planning_interface_base/task_base/common/path_util/path_bounds_decider_util.h`).
The repository ships only the class declaration; every function body below is
modelled from the specification's description of the corresponding member.
Real-valued quantities are modelled by rational numbers.
-/

namespace PathBounds

/-- Provenance tag of a bound value: lane marking, road edge, obstacle,
ADC (ego-vehicle) extension, or unknown. -/
inductive BoundType where
  | LANE
  | ROAD
  | OBSTACLE
  | ADC
  | UNKNOWN
deriving DecidableEq, Repr

/-- One sample of the path boundary: station, lateral bounds, and a
provenance tag plus owning id per side. -/
structure PathBoundPoint where
  s : ℚ
  l_min : ℚ
  l_max : ℚ
  l_min_type : BoundType := BoundType.UNKNOWN
  l_max_type : BoundType := BoundType.UNKNOWN
  l_min_id : String := ""
  l_max_id : String := ""
deriving DecidableEq, Repr

/-- The path boundary: an ordered sequence of samples. -/
abbrev PathBoundary := List PathBoundPoint

/-- SLState: station/lateral position, velocity and acceleration of the
vehicle in the reference-curve frame. -/
structure SLState where
  s : ℚ
  ds : ℚ
  dds : ℚ
  l : ℚ
  dl : ℚ
  ddl : ℚ
deriving DecidableEq, Repr

/-- A station/lateral bounding box of an obstacle footprint. -/
structure SLBoundary where
  start_s : ℚ
  end_s : ℚ
  start_l : ℚ
  end_l : ℚ
deriving DecidableEq, Repr

/-- An obstacle as seen by the path-bounds decider. -/
structure Obstacle where
  id : String
  is_static : Bool
  is_virtual : Bool
  sl_boundary : SLBoundary
deriving DecidableEq, Repr

/-- A sweep event: `(is_start, s, l_min, l_max, obstacle_id)`. -/
structure ObstacleEdge where
  is_start : Bool
  s : ℚ
  l_min : ℚ
  l_max : ℚ
  id : String
deriving DecidableEq, Repr

/-- An obstacle footprint in station/lateral space: its station span, the
lateral interval it occupies at a station within the span, and its corner
vertices. -/
structure SLPolygon where
  id : String
  start_s : ℚ
  end_s : ℚ
  interval : ℚ → ℚ × ℚ
  corners : List (ℚ × ℚ)

/-- Modelled from the spec: `GetBufferBetweenADCCenterAndEdge` returns a fixed
safety margin (a calibration constant; the body is not in the repository). -/
def GetBufferBetweenADCCenterAndEdge : ℚ := 1/2

/-- Running maximum (by station) over a list of (id, station) entries. -/
def farthestFold (e : String × ℚ) (rest : List (String × ℚ)) : String × ℚ :=
  rest.foldl (fun acc x => if acc.2 < x.2 then x else acc) e

/-- Modelled from the spec: `FindFarthestBlockObstaclesId` — given a mapping of
obstacle id to blocking station, returns the id of the obstacle with the
largest (farthest) blocking station, or the empty string if the mapping is
empty (the body is not in the repository). -/
def FindFarthestBlockObstaclesId (obs_id_to_start_s : List (String × ℚ)) : String :=
  match obs_id_to_start_s with
  | [] => ""
  | e :: rest => (farthestFold e rest).1

/-- Modelled from the spec: `TrimPathBounds` truncates the boundary sequence to
end at the first blocked index, discarding all later samples (the body is not
in the repository). -/
def TrimPathBounds (path_blocked_idx : ℕ) (path_boundaries : PathBoundary) : PathBoundary :=
  List.take path_blocked_idx path_boundaries

section FarthestLemmas

/-- The running-maximum fold over the tail returns the initial element or a
list element, and its station dominates the initial element and every list
element. -/
theorem foldl_max_spec (rest : List (String × ℚ)) : ∀ e : String × ℚ,
    (farthestFold e rest = e ∨ farthestFold e rest ∈ rest) ∧
    e.2 ≤ (farthestFold e rest).2 ∧
    ∀ x ∈ rest, x.2 ≤ (farthestFold e rest).2 := by
  induction rest with
  | nil => intro e; simp [farthestFold]
  | cons y tl ih =>
    intro e
    simp only [farthestFold, List.foldl_cons, List.mem_cons]
    simp only [farthestFold] at ih
    by_cases h : e.2 < y.2
    · simp only [if_pos h]
      rcases ih y with ⟨hmem, hinit, hall⟩
      refine ⟨?_, le_trans (le_of_lt h) hinit, ?_⟩
      · rcases hmem with h1 | h1
        · exact Or.inr (Or.inl h1)
        · exact Or.inr (Or.inr h1)
      · intro x hx
        rcases hx with rfl | hx
        · exact hinit
        · exact hall x hx
    · simp only [if_neg h]
      rcases ih e with ⟨hmem, hinit, hall⟩
      push_neg at h
      refine ⟨?_, hinit, ?_⟩
      · rcases hmem with h1 | h1
        · exact Or.inl h1
        · exact Or.inr (Or.inr h1)
      · intro x hx
        rcases hx with rfl | hx
        · exact le_trans h hinit
        · exact hall x hx

end FarthestLemmas

/-- C2: `FindFarthestBlockObstaclesId` returns `""` on the empty map; on any
non-empty map it returns the id of an entry whose station is largest; in
particular on `[("a", 5), ("b", 12)]` it returns `"b"`. -/
theorem findFarthestBlockObstaclesId_correct :
    (FindFarthestBlockObstaclesId [] = "") ∧
    (∀ m : List (String × ℚ), m ≠ [] →
      ∃ e ∈ m, FindFarthestBlockObstaclesId m = e.1 ∧ ∀ x ∈ m, x.2 ≤ e.2) ∧
    (FindFarthestBlockObstaclesId [("a", 5), ("b", 12)] = "b") := by
  refine ⟨rfl, ?_, by decide⟩
  intro m hm
  match m with
  | [] => exact absurd rfl hm
  | e :: rest =>
    rcases foldl_max_spec rest e with ⟨hmem, hinit, hall⟩
    refine ⟨farthestFold e rest, ?_, rfl, ?_⟩
    · rcases hmem with h1 | h1
      · rw [h1]; exact List.mem_cons_self e rest
      · exact List.mem_cons_of_mem e h1
    · intro x hx
      rcases List.mem_cons.mp hx with rfl | hx
      · exact hinit
      · exact hall x hx

/-- Witness for C2 at the concrete map `[("a", 5), ("b", 12)]`. -/
theorem findFarthestBlockObstaclesId_correct_witness :
    ∃ e ∈ [("a", (5 : ℚ)), ("b", 12)],
      FindFarthestBlockObstaclesId [("a", 5), ("b", 12)] = e.1 ∧
      ∀ x ∈ [("a", (5 : ℚ)), ("b", 12)], x.2 ≤ e.2 :=
  findFarthestBlockObstaclesId_correct.2.1 [("a", 5), ("b", 12)] (by decide)

/-- C3: for every boundary and every index in range, `TrimPathBounds idx B`
has length exactly `idx`, keeps every sample before `idx` and drops every
sample at position `≥ idx`. -/
theorem trimPathBounds_correct (idx : ℕ) (B : PathBoundary) (h : idx ≤ B.length) :
    (TrimPathBounds idx B).length = idx ∧
    (∀ i : ℕ, i < idx → (TrimPathBounds idx B)[i]? = B[i]?) ∧
    (∀ i : ℕ, idx ≤ i → (TrimPathBounds idx B)[i]? = none) := by
  unfold TrimPathBounds
  refine ⟨?_, ?_, ?_⟩
  · rw [List.length_take]
    exact Nat.min_eq_left h
  · intro i hi
    exact List.getElem?_take_of_lt hi
  · intro i hi
    apply List.getElem?_eq_none
    rw [List.length_take]
    exact le_trans (Nat.min_le_left _ _) hi

/-- Witness for C3 at a two-sample boundary trimmed to length one. -/
theorem trimPathBounds_correct_witness :
    (TrimPathBounds 1 [⟨0, -3, 3, .UNKNOWN, .UNKNOWN, "", ""⟩,
        ⟨1, -3, 3, .UNKNOWN, .UNKNOWN, "", ""⟩]).length = 1 ∧
    (∀ i : ℕ, i < 1 → (TrimPathBounds 1 [⟨0, -3, 3, .UNKNOWN, .UNKNOWN, "", ""⟩,
        ⟨1, -3, 3, .UNKNOWN, .UNKNOWN, "", ""⟩])[i]? =
        ([⟨0, -3, 3, .UNKNOWN, .UNKNOWN, "", ""⟩,
          ⟨1, -3, 3, .UNKNOWN, .UNKNOWN, "", ""⟩] : PathBoundary)[i]?) ∧
    (∀ i : ℕ, 1 ≤ i → (TrimPathBounds 1 [⟨0, -3, 3, .UNKNOWN, .UNKNOWN, "", ""⟩,
        ⟨1, -3, 3, .UNKNOWN, .UNKNOWN, "", ""⟩])[i]? = none) :=
  trimPathBounds_correct 1 _ (by decide)

/-- Modelled from the spec: `UpdateLeftPathBoundaryWithBuffer` applies a
left-side (upper, `l_max`) bound update with the safety buffer and type/id
tagging; it returns `none` (C++ `false`) exactly when the update makes the
interval at the point empty (the body is not in the repository). -/
def UpdateLeftPathBoundaryWithBuffer (left_bound : ℚ) (left_type : BoundType)
    (left_id : String) (bound_point : PathBoundPoint) : Option PathBoundPoint :=
  if min bound_point.l_max (left_bound - GetBufferBetweenADCCenterAndEdge) <
      bound_point.l_min then none
  else some { bound_point with
                l_max := min bound_point.l_max
                  (left_bound - GetBufferBetweenADCCenterAndEdge),
                l_max_type := left_type, l_max_id := left_id }

/-- Modelled from the spec: `UpdateRightPathBoundaryWithBuffer` applies a
right-side (lower, `l_min`) bound update with the safety buffer and type/id
tagging; it returns `none` (C++ `false`) exactly when the update makes the
interval at the point empty (the body is not in the repository). -/
def UpdateRightPathBoundaryWithBuffer (right_bound : ℚ) (right_type : BoundType)
    (right_id : String) (bound_point : PathBoundPoint) : Option PathBoundPoint :=
  if bound_point.l_max <
      max bound_point.l_min (right_bound + GetBufferBetweenADCCenterAndEdge) then none
  else some { bound_point with
                l_min := max bound_point.l_min
                  (right_bound + GetBufferBetweenADCCenterAndEdge),
                l_min_type := right_type, l_min_id := right_id }

/-- Modelled from the spec: `UpdatePathBoundaryWithBuffer` applies the
two-sided buffered bound update (left side, then right side); it returns
`none` (C++ `false`) exactly when the update makes the interval at the point
empty (the body is not in the repository). -/
def UpdatePathBoundaryWithBuffer (left_bound right_bound : ℚ)
    (left_type right_type : BoundType) (left_id right_id : String)
    (bound_point : PathBoundPoint) : Option PathBoundPoint :=
  (UpdateLeftPathBoundaryWithBuffer left_bound left_type left_id bound_point).bind
    (UpdateRightPathBoundaryWithBuffer right_bound right_type right_id)

section UpdateLemmas

theorem updateLeft_eq_none_iff (lb : ℚ) (lt : BoundType) (lid : String)
    (p : PathBoundPoint) :
    UpdateLeftPathBoundaryWithBuffer lb lt lid p = none ↔
      min p.l_max (lb - GetBufferBetweenADCCenterAndEdge) < p.l_min := by
  unfold UpdateLeftPathBoundaryWithBuffer
  split <;> simp_all

theorem updateLeft_eq_some (lb : ℚ) (lt : BoundType) (lid : String)
    (p q : PathBoundPoint)
    (h : UpdateLeftPathBoundaryWithBuffer lb lt lid p = some q) :
    q.s = p.s ∧ q.l_min = p.l_min ∧ q.l_min_type = p.l_min_type ∧
    q.l_min_id = p.l_min_id ∧
    q.l_max = min p.l_max (lb - GetBufferBetweenADCCenterAndEdge) ∧
    q.l_max_type = lt ∧ q.l_max_id = lid ∧ q.l_min ≤ q.l_max := by
  unfold UpdateLeftPathBoundaryWithBuffer at h
  split at h
  · exact absurd h (by simp)
  · rename_i hle
    push_neg at hle
    cases h
    simp_all

theorem updateRight_eq_none_iff (rb : ℚ) (rt : BoundType) (rid : String)
    (p : PathBoundPoint) :
    UpdateRightPathBoundaryWithBuffer rb rt rid p = none ↔
      p.l_max < max p.l_min (rb + GetBufferBetweenADCCenterAndEdge) := by
  unfold UpdateRightPathBoundaryWithBuffer
  split <;> simp_all

theorem updateRight_eq_some (rb : ℚ) (rt : BoundType) (rid : String)
    (p q : PathBoundPoint)
    (h : UpdateRightPathBoundaryWithBuffer rb rt rid p = some q) :
    q.s = p.s ∧ q.l_max = p.l_max ∧ q.l_max_type = p.l_max_type ∧
    q.l_max_id = p.l_max_id ∧
    q.l_min = max p.l_min (rb + GetBufferBetweenADCCenterAndEdge) ∧
    q.l_min_type = rt ∧ q.l_min_id = rid ∧ q.l_min ≤ q.l_max := by
  unfold UpdateRightPathBoundaryWithBuffer at h
  split at h
  · exact absurd h (by simp)
  · rename_i hle
    push_neg at hle
    cases h
    simp_all

theorem updateBoth_eq_none_iff (lb rb : ℚ) (lt rt : BoundType) (lid rid : String)
    (p : PathBoundPoint) :
    UpdatePathBoundaryWithBuffer lb rb lt rt lid rid p = none ↔
      min p.l_max (lb - GetBufferBetweenADCCenterAndEdge) <
        max p.l_min (rb + GetBufferBetweenADCCenterAndEdge) := by
  unfold UpdatePathBoundaryWithBuffer
  rcases hL : UpdateLeftPathBoundaryWithBuffer lb lt lid p with _ | q
  · rw [updateLeft_eq_none_iff] at hL
    simp only [Option.none_bind, true_iff]
    exact lt_of_lt_of_le hL (le_max_left _ _)
  · rcases updateLeft_eq_some lb lt lid p q hL with
      ⟨_, hmin, _, _, hmax, _, _, _⟩
    simp only [Option.some_bind]
    rw [updateRight_eq_none_iff, hmin, hmax]

theorem updateBoth_eq_some (lb rb : ℚ) (lt rt : BoundType) (lid rid : String)
    (p q : PathBoundPoint)
    (h : UpdatePathBoundaryWithBuffer lb rb lt rt lid rid p = some q) :
    q.s = p.s ∧
    q.l_max = min p.l_max (lb - GetBufferBetweenADCCenterAndEdge) ∧
    q.l_max_type = lt ∧ q.l_max_id = lid ∧
    q.l_min = max p.l_min (rb + GetBufferBetweenADCCenterAndEdge) ∧
    q.l_min_type = rt ∧ q.l_min_id = rid ∧ q.l_min ≤ q.l_max := by
  unfold UpdatePathBoundaryWithBuffer at h
  rcases hL : UpdateLeftPathBoundaryWithBuffer lb lt lid p with _ | m
  · rw [hL] at h; exact absurd h (by simp)
  · rw [hL] at h
    simp only [Option.some_bind] at h
    rcases updateLeft_eq_some lb lt lid p m hL with
      ⟨hs1, hmin1, _, _, hmax1, hmt1, hmi1, _⟩
    rcases updateRight_eq_some rb rt rid m q h with
      ⟨hs2, hmax2, hmt2, hmi2, hmin2, hqt, hqi, hle⟩
    refine ⟨hs2.trans hs1, ?_, hmt2.trans hmt1, hmi2.trans hmi1, ?_, hqt, hqi, hle⟩
    · rw [hmax2, hmax1]
    · rw [hmin2, hmin1]

end UpdateLemmas

/-- C4: each of the three buffered update functions fails (returns `none`,
C++ `false`) exactly when the buffered bound update makes the interval at the
given boundary point empty, and on success the updated interval is non-empty
and tagged with the given bound type and id. -/
theorem updatePathBoundaryWithBuffer_blocked_iff (lb rb : ℚ)
    (lt rt : BoundType) (lid rid : String) (p : PathBoundPoint) :
    (UpdateLeftPathBoundaryWithBuffer lb lt lid p = none ↔
      min p.l_max (lb - GetBufferBetweenADCCenterAndEdge) < p.l_min) ∧
    (∀ q, UpdateLeftPathBoundaryWithBuffer lb lt lid p = some q →
      q.l_min ≤ q.l_max ∧ q.l_max_type = lt ∧ q.l_max_id = lid) ∧
    (UpdateRightPathBoundaryWithBuffer rb rt rid p = none ↔
      p.l_max < max p.l_min (rb + GetBufferBetweenADCCenterAndEdge)) ∧
    (∀ q, UpdateRightPathBoundaryWithBuffer rb rt rid p = some q →
      q.l_min ≤ q.l_max ∧ q.l_min_type = rt ∧ q.l_min_id = rid) ∧
    (UpdatePathBoundaryWithBuffer lb rb lt rt lid rid p = none ↔
      min p.l_max (lb - GetBufferBetweenADCCenterAndEdge) <
        max p.l_min (rb + GetBufferBetweenADCCenterAndEdge)) ∧
    (∀ q, UpdatePathBoundaryWithBuffer lb rb lt rt lid rid p = some q →
      q.l_min ≤ q.l_max ∧ q.l_max_type = lt ∧ q.l_max_id = lid ∧
      q.l_min_type = rt ∧ q.l_min_id = rid) := by
  refine ⟨updateLeft_eq_none_iff lb lt lid p, ?_,
    updateRight_eq_none_iff rb rt rid p, ?_,
    updateBoth_eq_none_iff lb rb lt rt lid rid p, ?_⟩
  · intro q hq
    rcases updateLeft_eq_some lb lt lid p q hq with ⟨_, _, _, _, _, h1, h2, h3⟩
    exact ⟨h3, h1, h2⟩
  · intro q hq
    rcases updateRight_eq_some rb rt rid p q hq with ⟨_, _, _, _, _, h1, h2, h3⟩
    exact ⟨h3, h1, h2⟩
  · intro q hq
    rcases updateBoth_eq_some lb rb lt rt lid rid p q hq with
      ⟨_, _, h1, h2, _, h3, h4, h5⟩
    exact ⟨h5, h1, h2, h3, h4⟩

/-- Modelled from the C++ calling convention: `UpdatePathBoundaryWithBuffer`
receives a pointer to one `PathBoundPoint` inside the boundary sequence; the
lifted form updates the sequence at that index, leaving it unchanged when the
update reports a blocked point. -/
def UpdatePathBoundaryWithBufferAt (idx : ℕ) (left_bound right_bound : ℚ)
    (left_type right_type : BoundType) (left_id right_id : String)
    (bounds : PathBoundary) : Bool × PathBoundary :=
  match bounds[idx]? with
  | none => (false, bounds)
  | some p =>
    match UpdatePathBoundaryWithBuffer left_bound right_bound left_type
        right_type left_id right_id p with
    | none => (false, bounds)
    | some q => (true, bounds.set idx q)

/-- Modelled from the C++ calling convention: the left-side update applied at
one index of the boundary sequence. -/
def UpdateLeftPathBoundaryWithBufferAt (idx : ℕ) (left_bound : ℚ)
    (left_type : BoundType) (left_id : String) (bounds : PathBoundary) :
    Bool × PathBoundary :=
  match bounds[idx]? with
  | none => (false, bounds)
  | some p =>
    match UpdateLeftPathBoundaryWithBuffer left_bound left_type left_id p with
    | none => (false, bounds)
    | some q => (true, bounds.set idx q)

/-- Modelled from the C++ calling convention: the right-side update applied at
one index of the boundary sequence. -/
def UpdateRightPathBoundaryWithBufferAt (idx : ℕ) (right_bound : ℚ)
    (right_type : BoundType) (right_id : String) (bounds : PathBoundary) :
    Bool × PathBoundary :=
  match bounds[idx]? with
  | none => (false, bounds)
  | some p =>
    match UpdateRightPathBoundaryWithBuffer right_bound right_type right_id p with
    | none => (false, bounds)
    | some q => (true, bounds.set idx q)

/-- C10: the three buffered update functions mutate only the boundary point
they are given: every sample of the containing sequence at any other index is
unchanged by the call. -/
theorem updatePathBoundaryWithBuffer_frame (idx : ℕ) (lb rb : ℚ)
    (lt rt : BoundType) (lid rid : String) (bounds : PathBoundary) (j : ℕ)
    (hj : j ≠ idx) :
    (UpdatePathBoundaryWithBufferAt idx lb rb lt rt lid rid bounds).2[j]? =
      bounds[j]? ∧
    (UpdateLeftPathBoundaryWithBufferAt idx lb lt lid bounds).2[j]? =
      bounds[j]? ∧
    (UpdateRightPathBoundaryWithBufferAt idx rb rt rid bounds).2[j]? =
      bounds[j]? := by
  refine ⟨?_, ?_, ?_⟩
  · unfold UpdatePathBoundaryWithBufferAt
    rcases h : bounds[idx]? with _ | p
    · rfl
    · rcases hu : UpdatePathBoundaryWithBuffer lb rb lt rt lid rid p with _ | q
      · simp only [hu]
      · simp only [hu]
        exact List.getElem?_set_ne (fun h => hj h.symm)
  · unfold UpdateLeftPathBoundaryWithBufferAt
    rcases h : bounds[idx]? with _ | p
    · rfl
    · rcases hu : UpdateLeftPathBoundaryWithBuffer lb lt lid p with _ | q
      · simp only [hu]
      · simp only [hu]
        exact List.getElem?_set_ne (fun h => hj h.symm)
  · unfold UpdateRightPathBoundaryWithBufferAt
    rcases h : bounds[idx]? with _ | p
    · rfl
    · rcases hu : UpdateRightPathBoundaryWithBuffer rb rt rid p with _ | q
      · simp only [hu]
      · simp only [hu]
        exact List.getElem?_set_ne (fun h => hj h.symm)

/-- Witness for C10 at a concrete two-point boundary, updating index 0 and
checking index 1 unchanged. -/
theorem updatePathBoundaryWithBuffer_frame_witness :
    (UpdatePathBoundaryWithBufferAt 0 1 (-1) .LANE .LANE "L" "R"
        [⟨0, -3, 3, .UNKNOWN, .UNKNOWN, "", ""⟩,
         ⟨1, -3, 3, .UNKNOWN, .UNKNOWN, "", ""⟩]).2[1]? =
      ([⟨0, -3, 3, .UNKNOWN, .UNKNOWN, "", ""⟩,
        ⟨1, -3, 3, .UNKNOWN, .UNKNOWN, "", ""⟩] : PathBoundary)[1]? ∧
    (UpdateLeftPathBoundaryWithBufferAt 0 1 .LANE "L"
        [⟨0, -3, 3, .UNKNOWN, .UNKNOWN, "", ""⟩,
         ⟨1, -3, 3, .UNKNOWN, .UNKNOWN, "", ""⟩]).2[1]? =
      ([⟨0, -3, 3, .UNKNOWN, .UNKNOWN, "", ""⟩,
        ⟨1, -3, 3, .UNKNOWN, .UNKNOWN, "", ""⟩] : PathBoundary)[1]? ∧
    (UpdateRightPathBoundaryWithBufferAt 0 (-1) .LANE "R"
        [⟨0, -3, 3, .UNKNOWN, .UNKNOWN, "", ""⟩,
         ⟨1, -3, 3, .UNKNOWN, .UNKNOWN, "", ""⟩]).2[1]? =
      ([⟨0, -3, 3, .UNKNOWN, .UNKNOWN, "", ""⟩,
        ⟨1, -3, 3, .UNKNOWN, .UNKNOWN, "", ""⟩] : PathBoundary)[1]? :=
  updatePathBoundaryWithBuffer_frame 0 1 (-1) .LANE .LANE "L" "R" _ 1
    (by decide)

/-- Modelled from the spec: `ComputeSLBoundaryIntersection` returns the
`[l_min, l_max]` slice of the obstacle's footprint at the given station, or
`false` — leaving the output values untouched — if the obstacle does not span
that station (the body is not in the repository). The C++ out-pointers are
modelled by passing the current values in and returning them. -/
def ComputeSLBoundaryIntersection (sl_boundary : SLBoundary) (s : ℚ)
    (ptr_l_min ptr_l_max : ℚ) : Bool × ℚ × ℚ :=
  if s < sl_boundary.start_s ∨ sl_boundary.end_s < s then
    (false, ptr_l_min, ptr_l_max)
  else
    (true, sl_boundary.start_l, sl_boundary.end_l)

/-- C7: for a station outside an obstacle's span,
`ComputeSLBoundaryIntersection` returns `false` and leaves the values pointed
to by the output pointers unchanged; for a station inside the span it returns
`true` and the lateral slice of the footprint at that station. -/
theorem computeSLBoundaryIntersection_outside_span (sl : SLBoundary) (s : ℚ)
    (lmin lmax : ℚ) :
    ((s < sl.start_s ∨ sl.end_s < s) →
      ComputeSLBoundaryIntersection sl s lmin lmax = (false, lmin, lmax)) ∧
    (sl.start_s ≤ s → s ≤ sl.end_s →
      ComputeSLBoundaryIntersection sl s lmin lmax =
        (true, sl.start_l, sl.end_l)) := by
  constructor
  · intro h
    unfold ComputeSLBoundaryIntersection
    rw [if_pos h]
  · intro h1 h2
    unfold ComputeSLBoundaryIntersection
    rw [if_neg]
    push_neg
    exact ⟨h1, h2⟩

/-- Witness for C7: a box spanning stations `[10, 20]`, queried at station 5
(outside) and station 15 (inside). -/
theorem computeSLBoundaryIntersection_outside_span_witness :
    ComputeSLBoundaryIntersection ⟨10, 20, -1, 1⟩ 5 (-3) 3 = (false, -3, 3) ∧
    ComputeSLBoundaryIntersection ⟨10, 20, -1, 1⟩ 15 (-3) 3 = (true, -1, 1) :=
  ⟨(computeSLBoundaryIntersection_outside_span ⟨10, 20, -1, 1⟩ 5 (-3) 3).1
      (Or.inl (by norm_num)),
    (computeSLBoundaryIntersection_outside_span ⟨10, 20, -1, 1⟩ 15 (-3) 3).2
      (by norm_num) (by norm_num)⟩

/-- Modelled from the spec: `IsWithinPathDeciderScopeObstacle` keeps only the
obstacles relevant to the lateral boundary — static, non-virtual obstacles
(the body is not in the repository). -/
def IsWithinPathDeciderScopeObstacle (obstacle : Obstacle) : Bool :=
  obstacle.is_static && !obstacle.is_virtual

/-- The sweep event at which an obstacle's station-projected footprint begins. -/
def obstacleStartEdge (o : Obstacle) : ObstacleEdge :=
  ⟨true, o.sl_boundary.start_s, o.sl_boundary.start_l, o.sl_boundary.end_l, o.id⟩

/-- The sweep event at which an obstacle's station-projected footprint ends. -/
def obstacleEndEdge (o : Obstacle) : ObstacleEdge :=
  ⟨false, o.sl_boundary.end_s, o.sl_boundary.start_l, o.sl_boundary.end_l, o.id⟩

/-- The sweep ordering on edges: by station, and at equal stations start
edges come before end edges. -/
def EdgeLE (e1 e2 : ObstacleEdge) : Prop :=
  e1.s < e2.s ∨ (e1.s = e2.s ∧ (e1.is_start = true ∨ e2.is_start = false))

instance : DecidableRel EdgeLE := fun e1 e2 => by
  unfold EdgeLE; infer_instance

instance : IsTotal ObstacleEdge EdgeLE := by
  constructor
  intro a b
  rcases lt_trichotomy a.s b.s with h | h | h
  · exact Or.inl (Or.inl h)
  · rcases hb : a.is_start with _ | _
    · exact Or.inr (Or.inr ⟨h.symm, Or.inr hb⟩)
    · exact Or.inl (Or.inr ⟨h, Or.inl hb⟩)
  · exact Or.inr (Or.inl h)

instance : IsTrans ObstacleEdge EdgeLE := by
  constructor
  intro a b c hab hbc
  rcases hab with h1 | ⟨h1, h1'⟩
  · rcases hbc with h2 | ⟨h2, _⟩
    · exact Or.inl (h1.trans h2)
    · exact Or.inl (h2 ▸ h1)
  · rcases hbc with h2 | ⟨h2, h2'⟩
    · exact Or.inl (h1 ▸ h2)
    · refine Or.inr ⟨h1.trans h2, ?_⟩
      rcases h1' with h | h
      · exact Or.inl h
      · rcases h2' with h' | h'
        · rcases hb : b.is_start with _ | _
          · rw [hb] at h'
            exact absurd h'.symm (by simp)
          · rw [hb] at h
            exact absurd h (by simp)
        · exact Or.inr h'

/-- The two sweep events of every in-scope obstacle, in input order. -/
def ObstacleEdgesList : List Obstacle → List ObstacleEdge
  | [] => []
  | o :: rest =>
    if IsWithinPathDeciderScopeObstacle o then
      obstacleStartEdge o :: obstacleEndEdge o :: ObstacleEdgesList rest
    else
      ObstacleEdgesList rest

/-- Modelled from the spec: `SortObstaclesForSweepLine` filters obstacles to
those within path-decision scope, emits two `ObstacleEdge` entries (start and
end) per kept obstacle, and sorts them by station with start-before-end
tie-breaking (the body is not in the repository). -/
def SortObstaclesForSweepLine (indexed_obstacles : List Obstacle) :
    List ObstacleEdge :=
  List.insertionSort EdgeLE (ObstacleEdgesList indexed_obstacles)

section SweepSortLemmas

theorem obstacleEdgesList_length (obs : List Obstacle) :
    (ObstacleEdgesList obs).length =
      2 * (obs.filter IsWithinPathDeciderScopeObstacle).length := by
  induction obs with
  | nil => rfl
  | cons o rest ih =>
    unfold ObstacleEdgesList
    rcases h : IsWithinPathDeciderScopeObstacle o with _ | _
    · simp only [Bool.false_eq_true, if_false, List.filter_cons, h, ih]
    · simp only [if_true, List.filter_cons, h, List.length_cons, ih]
      ring

theorem obstacleEdgesList_mem (obs : List Obstacle) (e : ObstacleEdge) :
    e ∈ ObstacleEdgesList obs ↔
      ∃ o ∈ obs, IsWithinPathDeciderScopeObstacle o = true ∧
        (e = obstacleStartEdge o ∨ e = obstacleEndEdge o) := by
  induction obs with
  | nil => simp [ObstacleEdgesList]
  | cons o rest ih =>
    unfold ObstacleEdgesList
    rcases h : IsWithinPathDeciderScopeObstacle o with _ | _
    · simp only [Bool.false_eq_true, if_false, ih, List.mem_cons]
      constructor
      · rintro ⟨o', ho', hsc, hor⟩
        exact ⟨o', Or.inr ho', hsc, hor⟩
      · rintro ⟨o', ho' | ho', hsc, hor⟩
        · rw [ho', h] at hsc; exact absurd hsc (by simp)
        · exact ⟨o', ho', hsc, hor⟩
    · simp only [if_true, List.mem_cons, ih]
      constructor
      · rintro (rfl | rfl | ⟨o', ho', hsc, hor⟩)
        · exact ⟨o, Or.inl rfl, h, Or.inl rfl⟩
        · exact ⟨o, Or.inl rfl, h, Or.inr rfl⟩
        · exact ⟨o', Or.inr ho', hsc, hor⟩
      · rintro ⟨o', rfl | ho', hsc, rfl | rfl⟩
        · exact Or.inl rfl
        · exact Or.inr (Or.inl rfl)
        · exact Or.inr (Or.inr ⟨o', ho', hsc, Or.inl rfl⟩)
        · exact Or.inr (Or.inr ⟨o', ho', hsc, Or.inr rfl⟩)

end SweepSortLemmas

/-- C8: `SortObstaclesForSweepLine` emits exactly two edges per obstacle that
passes `IsWithinPathDeciderScopeObstacle` (its start edge and its end edge)
and none for obstacles that do not, and the returned list is pairwise ordered
by non-decreasing station with start-edges before end-edges at equal
stations. -/
theorem sortObstaclesForSweepLine_correct (obs : List Obstacle) :
    ((SortObstaclesForSweepLine obs).length =
      2 * (obs.filter IsWithinPathDeciderScopeObstacle).length) ∧
    (∀ o ∈ obs, IsWithinPathDeciderScopeObstacle o = true →
      obstacleStartEdge o ∈ SortObstaclesForSweepLine obs ∧
      obstacleEndEdge o ∈ SortObstaclesForSweepLine obs) ∧
    (∀ e ∈ SortObstaclesForSweepLine obs,
      ∃ o ∈ obs, IsWithinPathDeciderScopeObstacle o = true ∧
        (e = obstacleStartEdge o ∨ e = obstacleEndEdge o)) ∧
    (SortObstaclesForSweepLine obs).Pairwise EdgeLE := by
  refine ⟨?_, ?_, ?_, ?_⟩
  · rw [SortObstaclesForSweepLine, List.length_insertionSort]
    exact obstacleEdgesList_length obs
  · intro o ho hsc
    constructor
    · rw [SortObstaclesForSweepLine, List.mem_insertionSort]
      exact (obstacleEdgesList_mem obs _).mpr ⟨o, ho, hsc, Or.inl rfl⟩
    · rw [SortObstaclesForSweepLine, List.mem_insertionSort]
      exact (obstacleEdgesList_mem obs _).mpr ⟨o, ho, hsc, Or.inr rfl⟩
  · intro e he
    rw [SortObstaclesForSweepLine, List.mem_insertionSort] at he
    exact (obstacleEdgesList_mem obs e).mp he
  · exact List.sorted_insertionSort EdgeLE (ObstacleEdgesList obs)

/-- Witness for C8 at a concrete two-obstacle list (one in scope, one
virtual and hence out of scope). -/
theorem sortObstaclesForSweepLine_correct_witness :
    obstacleStartEdge ⟨"a", true, false, ⟨10, 20, -1, 1⟩⟩ ∈
      SortObstaclesForSweepLine
        [⟨"a", true, false, ⟨10, 20, -1, 1⟩⟩,
         ⟨"v", true, true, ⟨0, 5, -1, 1⟩⟩] ∧
    obstacleEndEdge ⟨"a", true, false, ⟨10, 20, -1, 1⟩⟩ ∈
      SortObstaclesForSweepLine
        [⟨"a", true, false, ⟨10, 20, -1, 1⟩⟩,
         ⟨"v", true, true, ⟨0, 5, -1, 1⟩⟩] :=
  (sortObstaclesForSweepLine_correct
      [⟨"a", true, false, ⟨10, 20, -1, 1⟩⟩,
       ⟨"v", true, true, ⟨0, 5, -1, 1⟩⟩]).2.1
    ⟨"a", true, false, ⟨10, 20, -1, 1⟩⟩ (by simp) (by decide)

/-- Station sampling step of the boundary (a calibration constant). -/
def kPathBoundsDeciderResolution : ℚ := 1/2

/-- Model of the "maximal representable" (unconstrained) lateral bound. -/
def kMaxLateralBound : ℚ := 10^10

/-- The reference-line data the path-bounds stages need: the station domain's
length and the lane edge offsets (left positive, right positive) at a
station. -/
structure ReferenceLineInfo where
  path_length : ℚ
  lane_left_l : ℚ → ℚ := fun _ => 3
  lane_right_l : ℚ → ℚ := fun _ => 3

/-- Modelled from the spec: `InitPathBoundary` — starting at the vehicle's
current station, emits one boundary sample per fixed station increment up to
the planning horizon, each with bounds set to the maximal representable
interval and type UNKNOWN; returns `none` (C++ `false`) if the vehicle is
already past the reference curve's end (the body is not in the repository). -/
def InitPathBoundary (reference_line_info : ReferenceLineInfo)
    (init_sl_state : SLState) : Option PathBoundary :=
  if reference_line_info.path_length ≤ init_sl_state.s then none
  else
    some ((List.range
        (((reference_line_info.path_length - init_sl_state.s) /
            kPathBoundsDeciderResolution).floor.toNat + 1)).map
      (fun i : ℕ =>
        { s := init_sl_state.s + (i : ℚ) * kPathBoundsDeciderResolution,
          l_min := -kMaxLateralBound, l_max := kMaxLateralBound }))

/-- The sweep event at which a polygon's station span begins. -/
def polygonStartEdge (poly : SLPolygon) : ObstacleEdge :=
  ⟨true, poly.start_s, (poly.interval poly.start_s).1,
    (poly.interval poly.start_s).2, poly.id⟩

/-- The sweep event at which a polygon's station span ends. -/
def polygonEndEdge (poly : SLPolygon) : ObstacleEdge :=
  ⟨false, poly.end_s, (poly.interval poly.end_s).1,
    (poly.interval poly.end_s).2, poly.id⟩

/-- The sorted sweep events of a polygon list. -/
def SLPolygonEdges (polys : List SLPolygon) : List ObstacleEdge :=
  List.insertionSort EdgeLE
    (polys.foldr (fun p acc => polygonStartEdge p :: polygonEndEdge p :: acc) [])

/-- Advance the sweep line to station `s`: apply every event strictly before
`s`, and start events exactly at `s`, to the active-obstacle id set. -/
def processEdgesUpTo (s : ℚ) : List ObstacleEdge → List String →
    List ObstacleEdge × List String
  | [], active => ([], active)
  | e :: rest, active =>
    if e.s < s ∨ (e.s = s ∧ e.is_start = true) then
      if e.is_start then processEdgesUpTo s rest (e.id :: active)
      else processEdgesUpTo s rest (active.erase e.id)
    else (e :: rest, active)

/-- Modelled from the spec: `UpdatePathBoundaryAndCenterLineWithBuffer`
applies the two-sided buffered update at a boundary point and moves the
running center-line estimate to the midpoint of the updated interval,
reporting `none` (C++ `false`) when the point is blocked (the body is not in
the repository). -/
def UpdatePathBoundaryAndCenterLineWithBuffer (left_bound right_bound : ℚ)
    (bound_point : PathBoundPoint) (center_line : ℚ) :
    Option (PathBoundPoint × ℚ) :=
  match UpdatePathBoundaryWithBuffer left_bound right_bound BoundType.OBSTACLE
      BoundType.OBSTACLE "" "" bound_point with
  | none => none
  | some q => some (q, (center_line + (q.l_min + q.l_max) / 2) / 2)

/-- Side selection at one station for one obstacle interval: pass on the
wider of the two gaps; at equal widths keep open the side nearer the running
center line (at an exact tie, pass below). -/
def chooseUpperSide (o_min o_max center_line : ℚ) (p : PathBoundPoint) : Bool :=
  if (o_min - GetBufferBetweenADCCenterAndEdge) - p.l_min <
      p.l_max - (o_max + GetBufferBetweenADCCenterAndEdge) then true
  else if p.l_max - (o_max + GetBufferBetweenADCCenterAndEdge) <
      (o_min - GetBufferBetweenADCCenterAndEdge) - p.l_min then false
  else decide ((o_min + o_max) / 2 < center_line)

/-- Intersect the corridor at one boundary point with the complement of one
active obstacle's lateral interval, keeping the wider (center-preferring)
gap; `none` when no gap remains (the point is blocked). -/
def processOneObstacle (poly : SLPolygon) (p : PathBoundPoint)
    (center_line : ℚ) : Option (PathBoundPoint × ℚ) :=
  if p.s < poly.start_s ∨ poly.end_s < p.s then some (p, center_line)
  else if chooseUpperSide (poly.interval p.s).1 (poly.interval p.s).2
      center_line p then
    UpdatePathBoundaryAndCenterLineWithBuffer
      (p.l_max + GetBufferBetweenADCCenterAndEdge) (poly.interval p.s).2
      p center_line
  else
    UpdatePathBoundaryAndCenterLineWithBuffer
      (poly.interval p.s).1 (p.l_min - GetBufferBetweenADCCenterAndEdge)
      p center_line

/-- Apply every active obstacle at one boundary point; on a blocked point
report the responsible obstacle's id. -/
def processActiveObstacles (polys : List SLPolygon) :
    List String → PathBoundPoint → ℚ → Except String (PathBoundPoint × ℚ)
  | [], p, c => Except.ok (p, c)
  | i :: rest, p, c =>
    match polys.find? (fun poly => poly.id == i) with
    | none => processActiveObstacles polys rest p c
    | some poly =>
      match processOneObstacle poly p c with
      | none => Except.error i
      | some (q, c2) => processActiveObstacles polys rest q c2

/-- The sweep over the boundary points: advance the event list, apply the
active obstacles, stop (truncating) at the first blocked point and record the
blocking obstacle's id. -/
def sweepPoints (polys : List SLPolygon) (edges : List ObstacleEdge)
    (active : List String) (center_line : ℚ) :
    List PathBoundPoint → List PathBoundPoint × String
  | [] => ([], "")
  | p :: rest =>
    match processEdgesUpTo p.s edges active with
    | (edges2, active2) =>
      match processActiveObstacles polys active2 p center_line with
      | Except.error bid => ([], bid)
      | Except.ok (q, center2) =>
        match sweepPoints polys edges2 active2 center2 rest with
        | (out, bid) => (q :: out, bid)

/-- Modelled from the spec: `GetBoundaryFromStaticObstacles` sweeps the
sorted obstacle edges along the boundary, maintaining the active obstacle
set and a running center line; at each station the corridor is intersected
with the complement of every active obstacle's lateral interval, keeping the
wider, center-preferring gap; at a blocked station the boundary is truncated
and the blocking obstacle's id recorded (the body is not in the
repository). -/
def GetBoundaryFromStaticObstacles (sl_polygons : List SLPolygon)
    (init_sl_state : SLState) (path_boundaries : PathBoundary) :
    PathBoundary × String :=
  sweepPoints sl_polygons (SLPolygonEdges sl_polygons) [] init_sl_state.l
    path_boundaries

/-- The single rectangular obstacle of the sweep-line acceptance scenario:
stations `[10, 20]`, lateral interval `[-1, 1]`. -/
def scenarioPolygon : SLPolygon :=
  { id := "obs", start_s := 10, end_s := 20,
    interval := fun _ => (-1, 1),
    corners := [(10, -1), (10, 1), (20, -1), (20, 1)] }

/-- The initial unconstrained boundary of the scenario: stations
`0, 1, ..., 30`, bounds `[-3, 3]`. -/
def scenarioBoundary : PathBoundary :=
  (List.range 31).map (fun i : ℕ =>
    { s := (i : ℚ), l_min := -3, l_max := 3 })

/-- The vehicle state of the scenario: at station 0, centered. -/
def scenarioInitState : SLState := ⟨0, 0, 0, 0, 0, 0⟩

/-- The boundary produced by the sweep on the scenario. -/
def scenarioResult : PathBoundary × String :=
  GetBoundaryFromStaticObstacles [scenarioPolygon] scenarioInitState
    scenarioBoundary

/-- C1: on the single-rectangle scenario the sweep keeps every station (no
blocking), leaves the bounds equal to `[-3, 3]` at every station outside
`[10, 20]`, and at every station inside `[10, 20]` produces an interval equal
to `[-3, x]` with `x < -1` or `[y, 3]` with `y > 1` (the wider,
center-preferring gap), never the unconstrained default. -/
theorem getBoundaryFromStaticObstacles_scenario :
    scenarioResult.1.length = 31 ∧
    scenarioResult.2 = "" ∧
    (∀ p ∈ scenarioResult.1,
      ((p.s < 10 ∨ 20 < p.s) → p.l_min = -3 ∧ p.l_max = 3) ∧
      (10 ≤ p.s ∧ p.s ≤ 20 →
        ((p.l_min = -3 ∧ p.l_max < -1) ∨ (1 < p.l_min ∧ p.l_max = 3)) ∧
        ¬(p.l_min = -3 ∧ p.l_max = 3))) := by
  with_unfolding_all decide

/-- Linear interpolation of the lateral bounds of the two neighboring regular
samples at an intermediate station. -/
def interpPointBetween (s : ℚ) (q1 q2 : PathBoundPoint) : PathBoundPoint :=
  { s := s,
    l_min := q1.l_min + (s - q1.s) / (q2.s - q1.s) * (q2.l_min - q1.l_min),
    l_max := q1.l_max + (s - q1.s) / (q2.s - q1.s) * (q2.l_max - q1.l_max),
    l_min_type := q1.l_min_type, l_max_type := q1.l_max_type,
    l_min_id := q1.l_min_id, l_max_id := q1.l_max_id }

/-- Apply an obstacle's true corner interval at one boundary point, keeping
the wider (center-preferring) gap; a corner that would close the interval
leaves the point unchanged. -/
def applyCornerBound (o_min o_max : ℚ) (obs_id : String)
    (q : PathBoundPoint) : PathBoundPoint :=
  if chooseUpperSide o_min o_max ((q.l_min + q.l_max) / 2) q then
    (UpdateRightPathBoundaryWithBuffer o_max BoundType.OBSTACLE obs_id q).getD q
  else
    (UpdateLeftPathBoundaryWithBuffer o_min BoundType.OBSTACLE obs_id q).getD q

/-- Modelled from the spec: `AddCornerPoint` — splice one obstacle-corner
constraint at station `cs` into the boundary: at an existing station the
corner bound is applied in place; strictly between two neighboring samples an
interpolated point is inserted and the corner bound applied to it; a corner
outside the station range is ignored (the body is not in the repository). -/
def AddCornerPoint (cs o_min o_max : ℚ) (obs_id : String) :
    PathBoundary → PathBoundary
  | [] => []
  | [q] => if q.s = cs then [applyCornerBound o_min o_max obs_id q] else [q]
  | q1 :: q2 :: rest =>
    if q1.s = cs then
      applyCornerBound o_min o_max obs_id q1 :: q2 :: rest
    else if q1.s < cs ∧ cs < q2.s then
      q1 :: applyCornerBound o_min o_max obs_id (interpPointBetween cs q1 q2) ::
        q2 :: rest
    else
      q1 :: AddCornerPoint cs o_min o_max obs_id (q2 :: rest)

/-- Modelled from the spec: `AddCornerBounds` — for each polygon's corner
vertices lying within the current station range, insert an exact boundary
point there and apply the polygon's corner bound (the body is not in the
repository). -/
def AddCornerBounds (sl_polygons : List SLPolygon)
    (path_boundary : PathBoundary) : PathBoundary :=
  sl_polygons.foldl
    (fun b poly =>
      poly.corners.foldl
        (fun bb c =>
          AddCornerPoint c.1 (poly.interval c.1).1 (poly.interval c.1).2
            poly.id bb)
        b)
    path_boundary

/-- Narrowest interval width over a boundary. -/
def narrowestWidthOf (b : PathBoundary) : ℚ :=
  b.foldl (fun w p => min w (p.l_max - p.l_min)) (2 * kMaxLateralBound)

/-- Modelled from the spec: `UpdatePathBoundaryBySLPolygon` drives the corner
refinement per polygon and reports the narrowest width encountered (the body
is not in the repository). -/
def UpdatePathBoundaryBySLPolygon (path_boundary : PathBoundary)
    (sl_polygon : List SLPolygon) : PathBoundary × ℚ :=
  (AddCornerBounds sl_polygon path_boundary,
    narrowestWidthOf (AddCornerBounds sl_polygon path_boundary))

/-- Strictly increasing stations along a boundary. -/
def StrictSortedS (b : PathBoundary) : Prop :=
  List.Pairwise (fun p q : PathBoundPoint => p.s < q.s) b

section CornerLemmas

theorem applyCornerBound_s (o_min o_max : ℚ) (obs_id : String)
    (q : PathBoundPoint) :
    (applyCornerBound o_min o_max obs_id q).s = q.s := by
  unfold applyCornerBound
  split
  · rcases h : UpdateRightPathBoundaryWithBuffer o_max BoundType.OBSTACLE
        obs_id q with _ | q'
    · simp
    · simp only [Option.getD_some]
      exact (updateRight_eq_some _ _ _ _ _ h).1
  · rcases h : UpdateLeftPathBoundaryWithBuffer o_min BoundType.OBSTACLE
        obs_id q with _ | q'
    · simp
    · simp only [Option.getD_some]
      exact (updateLeft_eq_some _ _ _ _ _ h).1

theorem addCornerPoint_mem_s (cs o_min o_max : ℚ) (obs_id : String) :
    ∀ (l : PathBoundary) (x : PathBoundPoint),
      x ∈ AddCornerPoint cs o_min o_max obs_id l →
      x.s = cs ∨ ∃ y ∈ l, x.s = y.s := by
  intro l
  induction l with
  | nil => intro x hx; exact absurd hx (by simp [AddCornerPoint])
  | cons q1 tl ih =>
    intro x hx
    cases tl with
    | nil =>
      unfold AddCornerPoint at hx
      split at hx
      · rename_i hq
        rcases List.mem_singleton.mp hx with rfl
        rw [applyCornerBound_s, hq]
        exact Or.inl rfl
      · rcases List.mem_singleton.mp hx with rfl
        exact Or.inr ⟨x, List.mem_singleton_self x, rfl⟩
    | cons q2 rest =>
      unfold AddCornerPoint at hx
      split at hx
      · rename_i hq
        rcases List.mem_cons.mp hx with rfl | hx2
        · rw [applyCornerBound_s, hq]; exact Or.inl rfl
        · exact Or.inr ⟨x, List.mem_cons_of_mem q1 hx2, rfl⟩
      · split at hx
        · rename_i hbet
          rcases List.mem_cons.mp hx with rfl | hx2
          · exact Or.inr ⟨x, List.mem_cons_self x _, rfl⟩
          · rcases List.mem_cons.mp hx2 with rfl | hx3
            · rw [applyCornerBound_s]
              exact Or.inl rfl
            · exact Or.inr ⟨x, List.mem_cons_of_mem q1 hx3, rfl⟩
        · rcases List.mem_cons.mp hx with rfl | hx2
          · exact Or.inr ⟨x, List.mem_cons_self x _, rfl⟩
          · rcases ih x hx2 with h | ⟨y, hy, hxy⟩
            · exact Or.inl h
            · exact Or.inr ⟨y, List.mem_cons_of_mem q1 hy, hxy⟩

theorem addCornerPoint_noop (cs o_min o_max : ℚ) (obs_id : String) :
    ∀ l : PathBoundary, (∀ y ∈ l, cs < y.s) →
      AddCornerPoint cs o_min o_max obs_id l = l := by
  intro l
  induction l with
  | nil => intro _; rfl
  | cons q1 tl ih =>
    intro hall
    have hq1 : cs < q1.s := hall q1 (List.mem_cons_self q1 tl)
    have hne : ¬q1.s = cs := by
      intro h
      rw [h] at hq1
      exact lt_irrefl cs hq1
    cases tl with
    | nil =>
      unfold AddCornerPoint
      rw [if_neg hne]
    | cons q2 rest =>
      unfold AddCornerPoint
      rw [if_neg hne,
        if_neg (by rintro ⟨h1, _⟩; exact absurd (h1.trans hq1) (lt_irrefl _)),
        ih (fun y hy => hall y (List.mem_cons_of_mem q1 hy))]

theorem addCornerPoint_sorted (cs o_min o_max : ℚ) (obs_id : String) :
    ∀ l : PathBoundary, StrictSortedS l →
      StrictSortedS (AddCornerPoint cs o_min o_max obs_id l) := by
  intro l
  induction l with
  | nil => intro _; exact List.Pairwise.nil
  | cons q1 tl ih =>
    intro hs
    cases tl with
    | nil =>
      unfold AddCornerPoint
      split
      · exact List.pairwise_singleton _ _
      · exact List.pairwise_singleton _ _
    | cons q2 rest =>
      rcases List.pairwise_cons.mp hs with ⟨hq1all, hs2⟩
      unfold AddCornerPoint
      split
      · rename_i hq
        refine List.pairwise_cons.mpr ⟨?_, hs2⟩
        intro y hy
        rw [applyCornerBound_s]
        exact hq1all y hy
      · split
        · rename_i hne hbet
          refine List.pairwise_cons.mpr ⟨?_, List.pairwise_cons.mpr ⟨?_, hs2⟩⟩
          · intro y hy
            rcases List.mem_cons.mp hy with rfl | hy2
            · rw [applyCornerBound_s]
              exact hbet.1
            · exact hq1all y hy2
          · intro y hy
            rw [applyCornerBound_s]
            rcases List.mem_cons.mp hy with rfl | hy2
            · exact hbet.2
            · exact hbet.2.trans
                ((List.pairwise_cons.mp hs2).1 y hy2)
        · rename_i hne hnb
          refine List.pairwise_cons.mpr ⟨?_, ih hs2⟩
          intro y hy
          rcases lt_trichotomy q1.s cs with hlt | heq | hgt
          · rcases addCornerPoint_mem_s cs o_min o_max obs_id _ y hy with
              h | ⟨z, hz, hyz⟩
            · rw [h]; exact hlt
            · rw [hyz]; exact hq1all z hz
          · exact absurd heq hne
          · rw [addCornerPoint_noop cs o_min o_max obs_id (q2 :: rest)
                (fun z hz => hgt.trans (hq1all z hz))] at hy
            exact hq1all y hy

end CornerLemmas

/-- Generic preservation of a predicate along a left fold. -/
theorem foldl_preserve {α β : Type} {P : β → Prop} {f : β → α → β}
    (hf : ∀ b a, P b → P (f b a)) :
    ∀ (l : List α) (b : β), P b → P (l.foldl f b) := by
  intro l
  induction l with
  | nil => intro b hb; exact hb
  | cons a tl ih => intro b hb; exact ih (f b a) (hf b a hb)

/-- C6: the stations of the boundary are strictly increasing after
`InitPathBoundary`, remain so after corner-point insertion by
`AddCornerBounds` / `UpdatePathBoundaryBySLPolygon` (inserted points are
spliced strictly between their neighbors), and remain so after
`TrimPathBounds`. -/
theorem stations_strictly_increasing (rli : ReferenceLineInfo) (st : SLState)
    (b0 : PathBoundary) (hinit : InitPathBoundary rli st = some b0)
    (polys : List SLPolygon) (b : PathBoundary) (hb : StrictSortedS b)
    (idx : ℕ) :
    StrictSortedS b0 ∧
    StrictSortedS (AddCornerBounds polys b) ∧
    StrictSortedS (UpdatePathBoundaryBySLPolygon b polys).1 ∧
    StrictSortedS (TrimPathBounds idx b) := by
  have hcorner : StrictSortedS (AddCornerBounds polys b) := by
    unfold AddCornerBounds
    refine foldl_preserve (fun bb poly hbb => ?_) polys b hb
    exact foldl_preserve
      (fun bbb c hbbb => addCornerPoint_sorted _ _ _ _ _ hbbb) poly.corners bb hbb
  refine ⟨?_, hcorner, hcorner, ?_⟩
  · unfold InitPathBoundary at hinit
    split at hinit
    · exact absurd hinit (by simp)
    · rcases Option.some_injective _ hinit with rfl
      unfold StrictSortedS
      rw [List.pairwise_map]
      refine (List.pairwise_lt_range _).imp ?_
      intro i j hij
      simp only
      have hij2 : (i : ℚ) < j := by exact_mod_cast hij
      have hres : (0 : ℚ) < kPathBoundsDeciderResolution := by
        norm_num [kPathBoundsDeciderResolution]
      nlinarith
  · exact List.Pairwise.sublist (List.take_sublist idx b) hb

/-- Witness for C6 at a concrete reference line, boundary and scenario
polygon. -/
theorem stations_strictly_increasing_witness :
    StrictSortedS [⟨0, -kMaxLateralBound, kMaxLateralBound,
        .UNKNOWN, .UNKNOWN, "", ""⟩,
      ⟨1/2, -kMaxLateralBound, kMaxLateralBound, .UNKNOWN, .UNKNOWN, "", ""⟩] ∧
    StrictSortedS (AddCornerBounds [scenarioPolygon] scenarioBoundary) ∧
    StrictSortedS
      (UpdatePathBoundaryBySLPolygon scenarioBoundary [scenarioPolygon]).1 ∧
    StrictSortedS (TrimPathBounds 5 scenarioBoundary) :=
  stations_strictly_increasing { path_length := 1/2 } ⟨0, 0, 0, 0, 0, 0⟩
    [⟨0, -kMaxLateralBound, kMaxLateralBound, .UNKNOWN, .UNKNOWN, "", ""⟩,
      ⟨1/2, -kMaxLateralBound, kMaxLateralBound, .UNKNOWN, .UNKNOWN, "", ""⟩]
    (by with_unfolding_all rfl) [scenarioPolygon] scenarioBoundary
    (by unfold scenarioBoundary StrictSortedS
        rw [List.pairwise_map]
        refine (List.pairwise_lt_range _).imp ?_
        intro i j hij
        simp only
        exact_mod_cast hij)
    5

/-- Number of samples of the short leading span widened by the lateral
relaxer (a calibration constant). -/
def kRelaxSpanNum : ℕ := 4

/-- Widen one sample just enough to include lateral position `l`, tagging a
widened side as ADC-sourced. -/
def relaxPoint (l : ℚ) (p : PathBoundPoint) : PathBoundPoint :=
  { s := p.s,
    l_min := if l < p.l_min then l else p.l_min,
    l_min_type := if l < p.l_min then BoundType.ADC else p.l_min_type,
    l_min_id := if l < p.l_min then "" else p.l_min_id,
    l_max := if p.l_max < l then l else p.l_max,
    l_max_type := if p.l_max < l then BoundType.ADC else p.l_max_type,
    l_max_id := if p.l_max < l then "" else p.l_max_id }

/-- Modelled from the spec: `RelaxEgoLateralBoundary` — if the vehicle's
current lateral position lies outside `[l_min, l_max]` at the first station,
widen that station's (and a short following span's) bound just enough to
include it, tagging the bound as ADC-sourced; fails (returns `none`, C++
`false`) when a hard obstacle bound at the very first station conflicts (the
body is not in the repository). -/
def RelaxEgoLateralBoundary (path_boundary : PathBoundary)
    (init_sl_state : SLState) : Option PathBoundary :=
  match path_boundary with
  | [] => none
  | p0 :: rest =>
    if p0.l_min ≤ init_sl_state.l ∧ init_sl_state.l ≤ p0.l_max then
      some (p0 :: rest)
    else if (init_sl_state.l < p0.l_min ∧ p0.l_min_type = BoundType.OBSTACLE) ∨
        (p0.l_max < init_sl_state.l ∧ p0.l_max_type = BoundType.OBSTACLE) then
      none
    else
      some (((p0 :: rest).take kRelaxSpanNum).map (relaxPoint init_sl_state.l)
        ++ (p0 :: rest).drop kRelaxSpanNum)

section RelaxLemmas

theorem relaxPoint_includes (l : ℚ) (p : PathBoundPoint) :
    (relaxPoint l p).l_min ≤ l ∧ l ≤ (relaxPoint l p).l_max := by
  unfold relaxPoint
  constructor
  · simp only
    split
    · exact le_refl l
    · rename_i h
      push_neg at h
      exact h
  · simp only
    split
    · exact le_refl l
    · rename_i h
      push_neg at h
      exact h

end RelaxLemmas

/-- C9: `RelaxEgoLateralBoundary` is idempotent — whenever it succeeds,
applying it again to its own output returns that output unchanged (and with
the same success result). -/
theorem relaxEgoLateralBoundary_idempotent (b : PathBoundary) (st : SLState)
    (b2 : PathBoundary) (h : RelaxEgoLateralBoundary b st = some b2) :
    RelaxEgoLateralBoundary b2 st = some b2 := by
  cases b with
  | nil => exact absurd h (by simp [RelaxEgoLateralBoundary])
  | cons p0 rest =>
    simp only [RelaxEgoLateralBoundary] at h
    split at h
    · rename_i hfeas
      rcases Option.some_injective _ h with rfl
      simp only [RelaxEgoLateralBoundary]
      rw [if_pos hfeas]
    · split at h
      · exact absurd h (by simp)
      · rcases Option.some_injective _ h with rfl
        have hsplit :
            ((p0 :: rest).take kRelaxSpanNum).map (relaxPoint st.l) ++
              (p0 :: rest).drop kRelaxSpanNum =
            relaxPoint st.l p0 ::
              ((rest.take (kRelaxSpanNum - 1)).map (relaxPoint st.l) ++
                rest.drop (kRelaxSpanNum - 1)) := by
          rfl
        rw [hsplit]
        simp only [RelaxEgoLateralBoundary]
        rw [if_pos (relaxPoint_includes st.l p0)]

/-- Witness for C9: a boundary whose first interval excludes the vehicle's
lateral position 2 is widened once, and re-applying the relaxer returns the
widened boundary unchanged. -/
theorem relaxEgoLateralBoundary_idempotent_witness :
    RelaxEgoLateralBoundary
      [⟨0, -1, 2, .LANE, .ADC, "", ""⟩, ⟨1, -1, 2, .LANE, .ADC, "", ""⟩]
      ⟨0, 0, 0, 2, 0, 0⟩ =
    some [⟨0, -1, 2, .LANE, .ADC, "", ""⟩, ⟨1, -1, 2, .LANE, .ADC, "", ""⟩] :=
  relaxEgoLateralBoundary_idempotent
    [⟨0, -1, 1, .LANE, .LANE, "", ""⟩, ⟨1, -1, 1, .LANE, .LANE, "", ""⟩]
    ⟨0, 0, 0, 2, 0, 0⟩
    [⟨0, -1, 2, .LANE, .ADC, "", ""⟩, ⟨1, -1, 2, .LANE, .ADC, "", ""⟩]
    (by with_unfolding_all rfl)

/-- Modelled from the spec: `GetBoundaryFromSelfLane` — narrow every
station's interval to the lane extents (with the safety buffer), truncating
at the first station the lane bounds close (the body is not in the
repository). -/
def GetBoundaryFromSelfLane (reference_line_info : ReferenceLineInfo)
    (init_sl_state : SLState) (path_bound : PathBoundary) : PathBoundary :=
  match path_bound with
  | [] => []
  | p :: rest =>
    match UpdatePathBoundaryWithBuffer (reference_line_info.lane_left_l p.s)
        (-(reference_line_info.lane_right_l p.s)) BoundType.LANE
        BoundType.LANE "" "" p with
    | none => []
    | some q =>
      q :: GetBoundaryFromSelfLane reference_line_info init_sl_state rest

/-- Every open (kept) station of a boundary has a non-empty interval. -/
def IntervalInv (b : PathBoundary) : Prop :=
  ∀ p ∈ b, p.l_min ≤ p.l_max

section InvLemmas

theorem updateAndCenter_some_inv (lb rb : ℚ) (p : PathBoundPoint) (c : ℚ)
    (q : PathBoundPoint) (c2 : ℚ)
    (h : UpdatePathBoundaryAndCenterLineWithBuffer lb rb p c = some (q, c2)) :
    q.l_min ≤ q.l_max := by
  unfold UpdatePathBoundaryAndCenterLineWithBuffer at h
  rcases hu : UpdatePathBoundaryWithBuffer lb rb BoundType.OBSTACLE
      BoundType.OBSTACLE "" "" p with _ | m
  · rw [hu] at h; exact absurd h (by simp)
  · rw [hu] at h
    simp only [Option.some.injEq, Prod.mk.injEq] at h
    rcases h with ⟨rfl, _⟩
    exact (updateBoth_eq_some _ _ _ _ _ _ _ _ hu).2.2.2.2.2.2.2

theorem processOneObstacle_some_inv (poly : SLPolygon) (p : PathBoundPoint)
    (c : ℚ) (q : PathBoundPoint) (c2 : ℚ)
    (h : processOneObstacle poly p c = some (q, c2)) (hp : p.l_min ≤ p.l_max) :
    q.l_min ≤ q.l_max := by
  unfold processOneObstacle at h
  split at h
  · simp only [Option.some.injEq, Prod.mk.injEq] at h
    rcases h with ⟨rfl, _⟩
    exact hp
  · split at h
    · exact updateAndCenter_some_inv _ _ _ _ _ _ h
    · exact updateAndCenter_some_inv _ _ _ _ _ _ h

theorem processActiveObstacles_ok_inv (polys : List SLPolygon) :
    ∀ (ids : List String) (p : PathBoundPoint) (c : ℚ) (q : PathBoundPoint)
      (c2 : ℚ),
      processActiveObstacles polys ids p c = Except.ok (q, c2) →
      p.l_min ≤ p.l_max → q.l_min ≤ q.l_max := by
  intro ids
  induction ids with
  | nil =>
    intro p c q c2 h hp
    unfold processActiveObstacles at h
    simp only [Except.ok.injEq, Prod.mk.injEq] at h
    rcases h with ⟨rfl, _⟩
    exact hp
  | cons i rest ih =>
    intro p c q c2 h hp
    unfold processActiveObstacles at h
    rcases hf : polys.find? (fun poly => poly.id == i) with _ | poly
    · simp only [hf] at h
      exact ih p c q c2 h hp
    · simp only [hf] at h
      rcases ho : processOneObstacle poly p c with _ | m
      · simp only [ho] at h
        exact absurd h (by simp)
      · simp only [ho] at h
        rcases m with ⟨m1, m2⟩
        exact ih m1 m2 q c2 h
          (processOneObstacle_some_inv poly p c m1 m2 ho hp)

theorem sweepPoints_inv (polys : List SLPolygon) :
    ∀ (pts : List PathBoundPoint) (edges : List ObstacleEdge)
      (active : List String) (c : ℚ),
      (∀ p ∈ pts, p.l_min ≤ p.l_max) →
      ∀ x ∈ (sweepPoints polys edges active c pts).1, x.l_min ≤ x.l_max := by
  intro pts
  induction pts with
  | nil =>
    intro edges active c _ x hx
    exact absurd hx (by simp [sweepPoints])
  | cons p rest ih =>
    intro edges active c hall x hx
    simp only [sweepPoints] at hx
    rcases h1 : processEdgesUpTo p.s edges active with ⟨edges2, active2⟩
    simp only [h1] at hx
    rcases h2 : processActiveObstacles polys active2 p c with bid | ⟨q, c3⟩
    · simp only [h2] at hx
      exact absurd hx (by simp)
    · simp only [h2, List.mem_cons] at hx
      rcases hx with rfl | hx2
      · exact processActiveObstacles_ok_inv polys active2 p c x c3 h2
          (hall p (List.mem_cons_self p rest))
      · exact ih edges2 active2 c3
          (fun y hy => hall y (List.mem_cons_of_mem p hy)) x hx2

theorem sweepPoints_length_le (polys : List SLPolygon) :
    ∀ (pts : List PathBoundPoint) (edges : List ObstacleEdge)
      (active : List String) (c : ℚ),
      (sweepPoints polys edges active c pts).1.length ≤ pts.length := by
  intro pts
  induction pts with
  | nil => intro edges active c; simp [sweepPoints]
  | cons p rest ih =>
    intro edges active c
    simp only [sweepPoints]
    rcases h1 : processEdgesUpTo p.s edges active with ⟨edges2, active2⟩
    simp only [h1]
    rcases h2 : processActiveObstacles polys active2 p c with bid | ⟨q, c3⟩
    · simp [h2]
    · simp only [h2, List.length_cons]
      exact Nat.succ_le_succ (ih edges2 active2 c3)

theorem interpPointBetween_inv (s : ℚ) (q1 q2 : PathBoundPoint)
    (h1 : q1.s < s) (h2 : s < q2.s) (hq1 : q1.l_min ≤ q1.l_max)
    (hq2 : q2.l_min ≤ q2.l_max) :
    (interpPointBetween s q1 q2).l_min ≤ (interpPointBetween s q1 q2).l_max := by
  unfold interpPointBetween
  simp only
  have hd : (0 : ℚ) < q2.s - q1.s := by linarith
  have ht0 : (0 : ℚ) ≤ (s - q1.s) / (q2.s - q1.s) :=
    div_nonneg (by linarith) (le_of_lt hd)
  have ht1 : (s - q1.s) / (q2.s - q1.s) ≤ 1 :=
    (div_le_one hd).mpr (by linarith)
  nlinarith [mul_nonneg ht0 (sub_nonneg.mpr hq2),
    mul_nonneg (sub_nonneg.mpr ht1) (sub_nonneg.mpr hq1)]

theorem applyCornerBound_inv (o_min o_max : ℚ) (obs_id : String)
    (q : PathBoundPoint) (hq : q.l_min ≤ q.l_max) :
    (applyCornerBound o_min o_max obs_id q).l_min ≤
      (applyCornerBound o_min o_max obs_id q).l_max := by
  unfold applyCornerBound
  split
  · rcases h : UpdateRightPathBoundaryWithBuffer o_max BoundType.OBSTACLE
        obs_id q with _ | q2
    · simpa using hq
    · simp only [Option.getD_some]
      exact (updateRight_eq_some _ _ _ _ _ h).2.2.2.2.2.2.2
  · rcases h : UpdateLeftPathBoundaryWithBuffer o_min BoundType.OBSTACLE
        obs_id q with _ | q2
    · simpa using hq
    · simp only [Option.getD_some]
      exact (updateLeft_eq_some _ _ _ _ _ h).2.2.2.2.2.2.2

theorem addCornerPoint_inv (cs o_min o_max : ℚ) (obs_id : String) :
    ∀ l : PathBoundary, IntervalInv l →
      IntervalInv (AddCornerPoint cs o_min o_max obs_id l) := by
  intro l
  induction l with
  | nil => intro _ x hx; exact absurd hx (by simp [AddCornerPoint])
  | cons q1 tl ih =>
    intro hinv x hx
    have hq1 : q1.l_min ≤ q1.l_max := hinv q1 (List.mem_cons_self q1 tl)
    have htl : IntervalInv tl := fun y hy => hinv y (List.mem_cons_of_mem q1 hy)
    cases tl with
    | nil =>
      unfold AddCornerPoint at hx
      split at hx
      · rcases List.mem_singleton.mp hx with rfl
        exact applyCornerBound_inv _ _ _ _ hq1
      · rcases List.mem_singleton.mp hx with rfl
        exact hq1
    | cons q2 rest =>
      have hq2 : q2.l_min ≤ q2.l_max := htl q2 (List.mem_cons_self q2 rest)
      unfold AddCornerPoint at hx
      split at hx
      · rcases List.mem_cons.mp hx with rfl | hx2
        · exact applyCornerBound_inv _ _ _ _ hq1
        · exact htl x hx2
      · split at hx
        · rename_i hne hbet
          rcases List.mem_cons.mp hx with rfl | hx2
          · exact hq1
          · rcases List.mem_cons.mp hx2 with rfl | hx3
            · exact applyCornerBound_inv _ _ _ _
                (interpPointBetween_inv cs q1 q2 hbet.1 hbet.2 hq1 hq2)
            · exact htl x hx3
        · rcases List.mem_cons.mp hx with rfl | hx2
          · exact hq1
          · exact ih htl x hx2

theorem relaxPoint_inv (l : ℚ) (p : PathBoundPoint)
    (hp : p.l_min ≤ p.l_max) :
    (relaxPoint l p).l_min ≤ (relaxPoint l p).l_max := by
  unfold relaxPoint
  simp only
  split
  · rename_i h1
    rw [if_neg (by push_neg; linarith)]
    linarith
  · split
    · linarith
    · exact hp

theorem getBoundaryFromSelfLane_cons (rli : ReferenceLineInfo) (st : SLState)
    (p : PathBoundPoint) (rest : PathBoundary) :
    GetBoundaryFromSelfLane rli st (p :: rest) =
      match UpdatePathBoundaryWithBuffer (rli.lane_left_l p.s)
          (-(rli.lane_right_l p.s)) BoundType.LANE BoundType.LANE "" "" p with
      | none => []
      | some q => q :: GetBoundaryFromSelfLane rli st rest := rfl

theorem getBoundaryFromSelfLane_inv (rli : ReferenceLineInfo) (st : SLState) :
    ∀ b : PathBoundary, IntervalInv (GetBoundaryFromSelfLane rli st b) := by
  intro b
  induction b with
  | nil => intro x hx; exact absurd hx (List.not_mem_nil x)
  | cons p rest ih =>
    intro x hx
    rw [getBoundaryFromSelfLane_cons] at hx
    rcases hu : UpdatePathBoundaryWithBuffer (rli.lane_left_l p.s)
        (-(rli.lane_right_l p.s)) BoundType.LANE BoundType.LANE "" "" p with
      _ | q
    · simp only [hu] at hx
      exact absurd hx (by simp)
    · simp only [hu] at hx
      rcases List.mem_cons.mp hx with rfl | hx2
      · exact (updateBoth_eq_some _ _ _ _ _ _ _ _ hu).2.2.2.2.2.2.2
      · exact ih x hx2

end InvLemmas

/-- C5: every station kept by a pipeline stage satisfies `l_min ≤ l_max`:
the initializer emits only non-empty intervals; a successful buffered update
yields a non-empty interval; the lane-tightening stage, the obstacle sweep,
corner refinement, trimming and ego relaxation all preserve the invariant,
the sweep never lengthening the boundary (a blocked point is exactly where
the boundary is cut). -/
theorem interval_invariant_through_stages (rli : ReferenceLineInfo)
    (st : SLState) (b0 : PathBoundary) (hinit : InitPathBoundary rli st = some b0)
    (lb rb : ℚ) (lt rt : BoundType) (lid rid : String) (p q : PathBoundPoint)
    (hupd : UpdatePathBoundaryWithBuffer lb rb lt rt lid rid p = some q)
    (polys : List SLPolygon) (b : PathBoundary) (hb : IntervalInv b)
    (idx : ℕ) (st2 : SLState) (b2 : PathBoundary)
    (hrelax : RelaxEgoLateralBoundary b st2 = some b2) :
    IntervalInv b0 ∧
    q.l_min ≤ q.l_max ∧
    IntervalInv (GetBoundaryFromSelfLane rli st b) ∧
    IntervalInv (GetBoundaryFromStaticObstacles polys st b).1 ∧
    (GetBoundaryFromStaticObstacles polys st b).1.length ≤ b.length ∧
    IntervalInv (AddCornerBounds polys b) ∧
    IntervalInv (TrimPathBounds idx b) ∧
    IntervalInv b2 := by
  refine ⟨?_, (updateBoth_eq_some _ _ _ _ _ _ _ _ hupd).2.2.2.2.2.2.2,
    getBoundaryFromSelfLane_inv rli st b,
    sweepPoints_inv polys b _ _ _ hb,
    sweepPoints_length_le polys b _ _ _, ?_, ?_, ?_⟩
  · unfold InitPathBoundary at hinit
    split at hinit
    · exact absurd hinit (by simp)
    · rcases Option.some_injective _ hinit with rfl
      intro x hx
      rcases List.mem_map.mp hx with ⟨i, _, rfl⟩
      simp only
      norm_num [kMaxLateralBound]
  · unfold AddCornerBounds
    refine foldl_preserve (fun bb poly hbb => ?_) polys b hb
    exact foldl_preserve
      (fun bbb c hbbb => addCornerPoint_inv _ _ _ _ _ hbbb) poly.corners bb hbb
  · intro x hx
    exact hb x (List.mem_of_mem_take hx)
  · cases b with
    | nil => exact absurd hrelax (by simp [RelaxEgoLateralBoundary])
    | cons p0 rest =>
      simp only [RelaxEgoLateralBoundary] at hrelax
      split at hrelax
      · rcases Option.some_injective _ hrelax with rfl
        exact hb
      · split at hrelax
        · exact absurd hrelax (by simp)
        · rcases Option.some_injective _ hrelax with rfl
          intro x hx
          rcases List.mem_append.mp hx with hx1 | hx2
          · rcases List.mem_map.mp hx1 with ⟨y, hy, rfl⟩
            exact relaxPoint_inv st2.l y
              (hb y (List.mem_of_mem_take hy))
          · exact hb x (List.mem_of_mem_drop hx2)

/-- Witness for C5 at concrete inputs for every hypothesis. -/
theorem interval_invariant_through_stages_witness :
    (⟨0, -3, 3, .UNKNOWN, .UNKNOWN, "", ""⟩ : PathBoundPoint).l_min ≤
      (⟨0, -3, 3, .UNKNOWN, .UNKNOWN, "", ""⟩ : PathBoundPoint).l_max :=
  (interval_invariant_through_stages { path_length := 1/2 } ⟨0, 0, 0, 0, 0, 0⟩
      [⟨0, -kMaxLateralBound, kMaxLateralBound, .UNKNOWN, .UNKNOWN, "", ""⟩,
        ⟨1/2, -kMaxLateralBound, kMaxLateralBound, .UNKNOWN, .UNKNOWN, "", ""⟩]
      (by with_unfolding_all rfl)
      1 (-1) .LANE .LANE "" "" ⟨0, -3, 3, .UNKNOWN, .UNKNOWN, "", ""⟩
      ⟨0, -1/2, 1/2, .LANE, .LANE, "", ""⟩ (by with_unfolding_all rfl)
      [scenarioPolygon]
      [⟨0, -3, 3, .UNKNOWN, .UNKNOWN, "", ""⟩]
      (by intro x hx
          rcases List.mem_singleton.mp hx with rfl
          norm_num)
      1 ⟨0, 0, 0, 2, 0, 0⟩
      [⟨0, -3, 3, .UNKNOWN, .UNKNOWN, "", ""⟩] (by with_unfolding_all rfl)
    ).2.2.2.2.2.2.1
    ⟨0, -3, 3, .UNKNOWN, .UNKNOWN, "", ""⟩
    (List.mem_singleton_self _)

end PathBounds
